import Mathlib

/-!
Shallow embedding of the account-router and streaming-translator core of the
`n8n-nodes-opencode` repository (Antigravity / Cloud Code subsystem), together
with proofs of the specification claims about it.

Conventions of the embedding:
* JavaScript epoch-millisecond timestamps are `Int`; `Date.now()` becomes an
  explicit `now : Int` argument.
* A nullable / possibly-absent JavaScript value is an `Option`;
  JavaScript truthiness of strings (`""` falsy) and numbers (`0` falsy) is made
  explicit at each use site, mirroring the source conditions.
* JavaScript objects used as string-keyed maps (`modelRateLimits`) are
  association lists; key lookup takes the first binding and key assignment
  replaces the first binding in place or appends a fresh one, matching
  JavaScript object-key semantics.
* Constants imported by the source from a `constants` module that is not part
  of the source tree (`DEFAULT_COOLDOWN_MS`, `MIN_SIGNATURE_LENGTH`) are kept
  as explicit parameters; no claim depends on their concrete values.
-/

namespace NOpen

/-- A per-model rate-limit entry, from `account-manager/rate-limits.js`:
`{isRateLimited, resetTime, actualResetMs}`.  `resetTime`/`actualResetMs` are
nullable epoch-ms / duration-ms numbers. -/
structure RateLimitEntry where
  isRateLimited : Bool
  resetTime : Option Int
  actualResetMs : Option Int
deriving DecidableEq, Repr

/-- An account record, with the fields read or written by the embedded code
(`rate-limits.js` and `strategies/hybrid-strategy.js`). `enabled` is tri-state
because the source tests `acc.enabled === false`. -/
structure Account where
  email : String
  isInvalid : Bool
  enabled : Option Bool
  consecutiveFailures : Nat
  lastUsed : Int
  modelRateLimits : List (String × RateLimitEntry)
  modelQuotaThresholds : List (String × Rat)
  quotaThreshold : Option Rat
deriving DecidableEq, Repr

/-- First-binding lookup in an association list (JavaScript object property
read `obj[key]`, with unique keys the first binding is the binding). -/
def lookupAssoc {α : Type} (k : String) : List (String × α) → Option α
  | [] => none
  | (k2, v) :: rest => if k2 = k then some v else lookupAssoc k rest

/-- JavaScript object property write `obj[key] = v`: replace the first binding
for `key` in place, or append a fresh binding. -/
def assocSet {α : Type} (k : String) (v : α) : List (String × α) → List (String × α)
  | [] => [(k, v)]
  | (k2, v2) :: rest => if k2 = k then (k, v) :: rest else (k2, v2) :: assocSet k v rest

/-- JavaScript truthiness of a nullable string (`null`/`undefined`/`""` are
falsy). -/
def strTruthy : Option String → Bool
  | none => false
  | some s => s ≠ ""

/-- Configuration value `DEFAULT_COOLDOWN_MS` imported by `rate-limits.js` from
`../constants.js` (constants module not part of the source tree); kept
abstract. -/
structure RLConfig where
  defaultCooldownMs : Int
deriving DecidableEq, Repr

/-- `isAllRateLimited(accounts, modelId)` from `rate-limits.js` lines 19-30:
empty pool is all-limited; absent model is never all-limited; otherwise every
account must be invalid, disabled, or have a rate-limit entry for the model
with `isRateLimited` and `resetTime > Date.now()` (a `null` `resetTime`
coerces to `0`). -/
def isAllRateLimited (now : Int) (accounts : List Account) (modelId : Option String) : Bool :=
  if accounts.isEmpty then true
  else if ¬ strTruthy modelId then false
  else accounts.all fun acc =>
    acc.isInvalid || acc.enabled == some false ||
      (match lookupAssoc (modelId.getD "") acc.modelRateLimits with
       | some limit => limit.isRateLimited && decide ((limit.resetTime.getD 0) > now)
       | none => false)

/-- One entry of the `clearExpiredLimits` scan: an entry with
`isRateLimited && resetTime <= now` (a `null` `resetTime` coerces to `0`) is
cleared to `{isRateLimited:false, resetTime:null}`; the second component
counts whether it was cleared. -/
def clearEntry (now : Int) (e : RateLimitEntry) : RateLimitEntry × Nat :=
  if e.isRateLimited ∧ (e.resetTime.getD 0) ≤ now then
    ({ e with isRateLimited := false, resetTime := none }, 1)
  else (e, 0)

/-- `clearExpiredLimits` applied to one account's `modelRateLimits`. -/
def clearAccount (now : Int) (a : Account) : Account × Nat :=
  ({ a with modelRateLimits := a.modelRateLimits.map fun p => (p.1, (clearEntry now p.2).1) },
   (a.modelRateLimits.map fun p => (clearEntry now p.2).2).sum)

/-- `clearExpiredLimits(accounts)` from `rate-limits.js` lines 73-91: scans
every account's per-model entries, clears the expired ones, and returns the
updated accounts plus the number cleared (the source mutates in place; the
embedding returns the updated list). -/
def clearExpiredLimits (now : Int) (accounts : List Account) : List Account × Nat :=
  (accounts.map fun a => (clearAccount now a).1,
   (accounts.map fun a => (clearAccount now a).2).sum)

/-- Effective reset duration used by `markRateLimited`:
`(resetMs && resetMs > 0) ? resetMs : DEFAULT_COOLDOWN_MS`. -/
def effectiveResetMs (cfg : RLConfig) : Option Int → Int
  | some v => if 0 < v then v else cfg.defaultCooldownMs
  | none => cfg.defaultCooldownMs

/-- The account update performed by `markRateLimited` on the account found by
email: write the model's entry and bump `consecutiveFailures`. -/
def markRateLimitedUpdate (cfg : RLConfig) (now : Int) (resetMs : Option Int)
    (modelId : String) (a : Account) : Account :=
  { a with
    modelRateLimits := assocSet modelId
      { isRateLimited := true
        resetTime := some (now + effectiveResetMs cfg resetMs)
        actualResetMs := some (effectiveResetMs cfg resetMs) } a.modelRateLimits
    consecutiveFailures := a.consecutiveFailures + 1 }

/-- `markRateLimited(accounts, email, resetMs, modelId)` from `rate-limits.js`
lines 118-151: finds the first account with the given email (JavaScript
`Array.prototype.find`), updates it, and reports whether one was found. -/
def markRateLimited (cfg : RLConfig) (now : Int) (accounts : List Account)
    (email : String) (resetMs : Option Int) (modelId : String) : List Account × Bool :=
  match accounts with
  | [] => ([], false)
  | a :: rest =>
    if a.email = email then (markRateLimitedUpdate cfg now resetMs modelId a :: rest, true)
    else
      let r := markRateLimited cfg now rest email resetMs modelId
      (a :: r.1, r.2)

/-- The wait candidate considered by the `getMinWaitTimeMs` loop for one
account: present only when the model has an entry with `isRateLimited` and a
truthy `resetTime`, in which case it is `resetTime - now` (kept later only if
positive). -/
def waitCandidate (now : Int) (modelId : String) (a : Account) : Option Int :=
  match lookupAssoc modelId a.modelRateLimits with
  | some limit =>
    if limit.isRateLimited ∧ (limit.resetTime.getD 0) ≠ 0 then
      some ((limit.resetTime.getD 0) - now)
    else none
  | none => none

/-- The accumulator step of the `getMinWaitTimeMs` loop: keep the smaller of
the running minimum and a new positive wait (`none` is `Infinity`). -/
def minWaitFold (acc : Option Int) (w : Int) : Option Int :=
  if 0 < w ∧ (match acc with | none => true | some m => decide (w < m)) = true then some w
  else acc

/-- `getMinWaitTimeMs(accounts, modelId)` from `rate-limits.js` lines 189-214:
`0` unless all accounts are rate-limited; otherwise the minimum positive
`resetTime - now` over entries currently flagged rate-limited, defaulting to
`DEFAULT_COOLDOWN_MS` when no positive wait was found. -/
def getMinWaitTimeMs (cfg : RLConfig) (now : Int) (accounts : List Account)
    (modelId : Option String) : Int :=
  if ¬ isAllRateLimited now accounts modelId then 0
  else
    let waits := if strTruthy modelId then
        accounts.filterMap (waitCandidate now (modelId.getD ""))
      else []
    match waits.foldl minWaitFold none with
    | none => cfg.defaultCooldownMs
    | some w => w

/-- A minimum over a list of `Int`s, `none` on the empty list. -/
def minOpt : List Int → Option Int
  | [] => none
  | x :: xs => match minOpt xs with | none => some x | some m => some (min x m)

/-- The smallest positive element of a list of waits. -/
def minPosSpec (l : List Int) : Option Int := minOpt (l.filter fun w => decide (0 < w))

/-- Following the claim's words (for comparison with the source behavior): the
`resetTime - now` values over ALL of the accounts' entries for the model,
regardless of the `isRateLimited` flag. -/
def entryWaitsAllSpec (now : Int) (modelId : String) (accounts : List Account) : List Int :=
  accounts.filterMap fun a =>
    (lookupAssoc modelId a.modelRateLimits).bind fun l => l.resetTime.map fun rt => rt - now

section RateLimitLemmas

lemma clearEntry_fst_idem (now : Int) (e : RateLimitEntry) :
    clearEntry now (clearEntry now e).1 = ((clearEntry now e).1, 0) := by
  by_cases h : e.isRateLimited = true ∧ (e.resetTime.getD 0) ≤ now <;>
    simp [clearEntry, h]

lemma clearList_fst_idem (now : Int) (l : List (String × RateLimitEntry)) :
    (l.map fun p => (p.1, (clearEntry now p.2).1)).map
        (fun p => (p.1, (clearEntry now p.2).1)) =
      l.map fun p => (p.1, (clearEntry now p.2).1) := by
  induction l with
  | nil => rfl
  | cons p rest ih =>
    have h := clearEntry_fst_idem now p.2
    simp only [List.map_cons, ih, List.cons.injEq, and_true]
    simp [h]

lemma clearList_snd_idem (now : Int) (l : List (String × RateLimitEntry)) :
    ((l.map fun p => (p.1, (clearEntry now p.2).1)).map
        fun p => (clearEntry now p.2).2).sum = 0 := by
  induction l with
  | nil => rfl
  | cons p rest ih =>
    have h := clearEntry_fst_idem now p.2
    simp only [List.map_cons, List.sum_cons, ih, Nat.add_zero]
    simp [h]

lemma clearAccount_idem (now : Int) (a : Account) :
    clearAccount now (clearAccount now a).1 = ((clearAccount now a).1, 0) := by
  simp only [clearAccount, clearList_fst_idem, clearList_snd_idem]

lemma lookupAssoc_assocSet {α : Type} (k : String) (v : α) (l : List (String × α)) :
    lookupAssoc k (assocSet k v l) = some v := by
  induction l with
  | nil => simp [assocSet, lookupAssoc]
  | cons p rest ih =>
    by_cases h : p.1 = k
    · simp [assocSet, lookupAssoc, h]
    · cases p with
      | mk k2 v2 =>
        simp only at h
        simp [assocSet, lookupAssoc, h, ih]

lemma foldl_minWaitFold (l : List Int) : ∀ acc : Option Int,
    l.foldl minWaitFold acc =
      match acc, minPosSpec l with
      | none, m => m
      | some a, none => some a
      | some a, some m => some (min a m) := by
  induction l with
  | nil => intro acc; cases acc <;> simp [minPosSpec, minOpt]
  | cons x xs ih =>
    intro acc
    have hx : ∀ a : Int, minWaitFold (some a) x = if 0 < x then some (min a x) else some a := by
      intro a
      by_cases h0 : 0 < x
      · by_cases hlt : x < a
        · simp [minWaitFold, h0, hlt, min_eq_right (le_of_lt hlt)]
        · simp [minWaitFold, h0, hlt, min_eq_left (le_of_not_lt hlt)]
      · simp [minWaitFold, h0]
    have hn : minWaitFold none x = if 0 < x then some x else none := by
      by_cases h0 : 0 < x <;> simp [minWaitFold, h0]
    have hcons : minPosSpec (x :: xs) =
        if 0 < x then
          (match minPosSpec xs with | none => some x | some m => some (min x m))
        else minPosSpec xs := by
      by_cases h0 : 0 < x <;> simp [minPosSpec, List.filter, h0, minOpt]
    simp only [List.foldl_cons]
    rw [ih]
    by_cases h0 : 0 < x
    · cases acc with
      | none =>
        rw [hn, if_pos h0, hcons, if_pos h0]
        cases hxs : minPosSpec xs <;> simp
      | some a =>
        rw [hx, if_pos h0, hcons, if_pos h0]
        cases hxs : minPosSpec xs with
        | none => simp
        | some m => simp [min_assoc]
    · cases acc with
      | none => rw [hn, if_neg h0, hcons, if_neg h0]
      | some a => rw [hx, if_neg h0, hcons, if_neg h0]

lemma clearEntry_snd (now : Int) (e : RateLimitEntry) :
    (clearEntry now e).2 =
      if e.isRateLimited = true ∧ e.resetTime.getD 0 ≤ now then 1 else 0 := by
  by_cases h : e.isRateLimited = true ∧ e.resetTime.getD 0 ≤ now <;> simp [clearEntry, h]

lemma clearAccount_count (now : Int) (a : Account) :
    (clearAccount now a).2 = (a.modelRateLimits.filter fun p =>
        decide (p.2.isRateLimited = true ∧ p.2.resetTime.getD 0 ≤ now)).length := by
  simp only [clearAccount]
  induction a.modelRateLimits with
  | nil => rfl
  | cons p rest ih =>
    simp only [List.map_cons, List.sum_cons, List.filter_cons, clearEntry_snd] at ih ⊢
    by_cases h : p.2.isRateLimited = true ∧ p.2.resetTime.getD 0 ≤ now
    · simp [h, ih]
      omega
    · simp [h, ih]

lemma clearList_rel (now : Int) (l : List (String × RateLimitEntry)) :
    List.Forall₂ (fun p q : String × RateLimitEntry =>
        q.1 = p.1 ∧
        (if p.2.isRateLimited = true ∧ p.2.resetTime.getD 0 ≤ now then
          q.2 = { p.2 with isRateLimited := false, resetTime := none }
        else q.2 = p.2)) l (l.map fun p => (p.1, (clearEntry now p.2).1)) := by
  induction l with
  | nil => exact List.Forall₂.nil
  | cons p rest ih =>
    refine List.Forall₂.cons ⟨rfl, ?_⟩ ih
    by_cases h : p.2.isRateLimited = true ∧ p.2.resetTime.getD 0 ≤ now <;>
      simp [clearEntry, h]

end RateLimitLemmas

/-- C6: `clearExpiredLimits` clears a per-model entry (to
`isRateLimited=false`, `resetTime=null`) exactly when the entry has
`isRateLimited` and `resetTime ≤ now`, leaves every other entry and every
other account field unchanged, returns the number of entries cleared, and
running it a second time at the same instant changes nothing and clears
nothing. -/
theorem c6_clearExpiredLimits_spec (now : Int) (accounts : List Account) :
    List.Forall₂ (fun a a2 : Account =>
        a2.email = a.email ∧ a2.isInvalid = a.isInvalid ∧ a2.enabled = a.enabled ∧
        a2.consecutiveFailures = a.consecutiveFailures ∧ a2.lastUsed = a.lastUsed ∧
        a2.modelQuotaThresholds = a.modelQuotaThresholds ∧
        a2.quotaThreshold = a.quotaThreshold ∧
        List.Forall₂ (fun p q : String × RateLimitEntry =>
            q.1 = p.1 ∧
            (if p.2.isRateLimited = true ∧ p.2.resetTime.getD 0 ≤ now then
              q.2 = { p.2 with isRateLimited := false, resetTime := none }
            else q.2 = p.2)) a.modelRateLimits a2.modelRateLimits)
      accounts (clearExpiredLimits now accounts).1 ∧
    (clearExpiredLimits now accounts).2 =
      (accounts.map fun a => (a.modelRateLimits.filter fun p =>
          decide (p.2.isRateLimited = true ∧ p.2.resetTime.getD 0 ≤ now)).length).sum ∧
    clearExpiredLimits now (clearExpiredLimits now accounts).1 =
      ((clearExpiredLimits now accounts).1, 0) := by
  refine ⟨?_, ?_, ?_⟩
  · induction accounts with
    | nil => exact List.Forall₂.nil
    | cons a rest ih =>
      refine List.Forall₂.cons ?_ ih
      exact ⟨rfl, rfl, rfl, rfl, rfl, rfl, rfl, clearList_rel now a.modelRateLimits⟩
  · simp only [clearExpiredLimits]
    induction accounts with
    | nil => rfl
    | cons a rest ih => simp [clearAccount_count, ih]
  · simp only [clearExpiredLimits, Prod.mk.injEq, List.map_map]
    constructor
    · induction accounts with
      | nil => rfl
      | cons a rest ih =>
        simp only [List.map_cons, List.cons.injEq] at ih ⊢
        refine ⟨?_, ih⟩
        have h := clearAccount_idem now a
        simp [Function.comp, h]
    · induction accounts with
      | nil => rfl
      | cons a rest ih =>
        simp only [List.map_cons, List.sum_cons] at ih ⊢
        have h := clearAccount_idem now a
        simp only [Function.comp, h]
        simpa using ih

/-- An account literal with the quota/selection fields defaulted; used for
concrete evaluations. -/
def mkAccount (email : String) (isInvalid : Bool) (enabled : Option Bool)
    (mrl : List (String × RateLimitEntry)) : Account :=
  { email := email, isInvalid := isInvalid, enabled := enabled,
    consecutiveFailures := 0, lastUsed := 0,
    modelRateLimits := mrl, modelQuotaThresholds := [], quotaThreshold := none }

/-- C7 counterexample: account "a" is invalid but holds a stale entry for model
"M" with `isRateLimited=false` and `resetTime=now+100`; account "b" is
rate-limited with reset `now+5000`.  The pool counts as all-rate-limited, the
smallest positive `resetTime - now` over ALL of the accounts' entries for "M"
is 100, yet `getMinWaitTimeMs` returns 5000, because the source's loop skips
entries whose `isRateLimited` flag is off. -/
theorem c7_counterexample :
    getMinWaitTimeMs ⟨30000⟩ 1000
        [mkAccount "a" true none [("M", ⟨false, some 1100, none⟩)],
         mkAccount "b" false none [("M", ⟨true, some 6000, some 5000⟩)]] (some "M") = 5000 ∧
    minPosSpec (entryWaitsAllSpec 1000 "M"
        [mkAccount "a" true none [("M", ⟨false, some 1100, none⟩)],
         mkAccount "b" false none [("M", ⟨true, some 6000, some 5000⟩)]]) = some 100 ∧
    (5000 : Int) ≠ 100 := by decide

/-- C7 (amended): `getMinWaitTimeMs` returns 0 when not all accounts are
rate-limited; otherwise it returns the smallest positive `resetTime - now`
over the accounts' entries for the model that are currently flagged
rate-limited with a truthy `resetTime`, or `DEFAULT_COOLDOWN_MS` when no such
positive wait exists; in the scenario with all accounts rate-limited for "M"
with resets at now+1000 and now+5000 it returns 1000. -/
theorem c7_getMinWaitTimeMs_spec (cfg : RLConfig) (now : Int) (accounts : List Account)
    (modelId : Option String) :
    (isAllRateLimited now accounts modelId = false →
      getMinWaitTimeMs cfg now accounts modelId = 0) ∧
    (isAllRateLimited now accounts modelId = true →
      getMinWaitTimeMs cfg now accounts modelId =
        (minPosSpec (if strTruthy modelId then
            accounts.filterMap (waitCandidate now (modelId.getD "")) else [])).getD
          cfg.defaultCooldownMs) ∧
    getMinWaitTimeMs ⟨30000⟩ 0
        [mkAccount "p" false none [("M", ⟨true, some 1000, some 1000⟩)],
         mkAccount "q" false none [("M", ⟨true, some 5000, some 5000⟩)]] (some "M") = 1000 := by
  refine ⟨fun h => by simp [getMinWaitTimeMs, h], fun h => ?_, by decide⟩
  simp only [getMinWaitTimeMs, h, Bool.true_eq_false, not_false_eq_true, if_neg,
    Bool.not_eq_true]
  rw [foldl_minWaitFold]
  cases hmp : minPosSpec (if strTruthy modelId then
      accounts.filterMap (waitCandidate now (modelId.getD "")) else []) <;> simp [hmp]

/-- C7 witness: the amended theorem applied at concrete pools, discharging
each hypothesis by evaluation. -/
theorem c7_witness :
    getMinWaitTimeMs ⟨30000⟩ 0 [mkAccount "x" false none []] (some "M") = 0 ∧
    getMinWaitTimeMs ⟨30000⟩ 0 [mkAccount "y" true none []] (some "M") =
      (minPosSpec (if strTruthy (some "M") then
          [mkAccount "y" true none []].filterMap (waitCandidate 0 "M") else [])).getD 30000 :=
  ⟨(c7_getMinWaitTimeMs_spec ⟨30000⟩ 0 [mkAccount "x" false none []] (some "M")).1 (by decide),
   (c7_getMinWaitTimeMs_spec ⟨30000⟩ 0 [mkAccount "y" true none []] (some "M")).2.1 (by decide)⟩

lemma effectiveResetMs_eq (cfg : RLConfig) (resetMs : Option Int) :
    (match resetMs with
      | some v => if 0 < v then v else cfg.defaultCooldownMs
      | none => cfg.defaultCooldownMs) = effectiveResetMs cfg resetMs := by
  cases resetMs <;> rfl

/-- C8: for the first account in the pool carrying the given email,
`markRateLimited` reports success, writes the model's entry with
`isRateLimited=true` and `resetTime = now + resetMs` when `resetMs` is
positive (`now + DEFAULT_COOLDOWN_MS` when `resetMs` is absent or
non-positive), and increments that account's `consecutiveFailures` by one. -/
theorem c8_markRateLimited_spec (cfg : RLConfig) (now : Int) (accounts : List Account)
    (email : String) (resetMs : Option Int) (modelId : String)
    (h : ∃ a ∈ accounts, a.email = email) :
    (markRateLimited cfg now accounts email resetMs modelId).2 = true ∧
    ∃ pre a post, accounts = pre ++ a :: post ∧ (∀ b ∈ pre, b.email ≠ email) ∧
      a.email = email ∧
      (markRateLimited cfg now accounts email resetMs modelId).1 =
        pre ++ markRateLimitedUpdate cfg now resetMs modelId a :: post ∧
      lookupAssoc modelId (markRateLimitedUpdate cfg now resetMs modelId a).modelRateLimits =
        some { isRateLimited := true,
               resetTime := some (now + (match resetMs with
                 | some v => if 0 < v then v else cfg.defaultCooldownMs
                 | none => cfg.defaultCooldownMs)),
               actualResetMs := some (effectiveResetMs cfg resetMs) } ∧
      (markRateLimitedUpdate cfg now resetMs modelId a).consecutiveFailures =
        a.consecutiveFailures + 1 := by
  induction accounts with
  | nil => simp at h
  | cons a0 rest ih =>
    by_cases he : a0.email = email
    · refine ⟨by simp [markRateLimited, he], [], a0, rest, rfl, by simp, he, ?_, ?_, rfl⟩
      · simp [markRateLimited, he]
      · rw [effectiveResetMs_eq]
        simp [markRateLimitedUpdate, lookupAssoc_assocSet]
    · have h2 : ∃ a ∈ rest, a.email = email := by
        rcases h with ⟨a, ha, hae⟩
        rcases List.mem_cons.mp ha with rfl | hmem
        · exact absurd hae he
        · exact ⟨a, hmem, hae⟩
      obtain ⟨hok, pre, a, post, hacc, hpre, hae, hres, hlook, hcf⟩ := ih h2
      refine ⟨by simp [markRateLimited, he, hok], a0 :: pre, a, post,
        by rw [List.cons_append, ← hacc], ?_, hae, ?_, hlook, hcf⟩
      · intro b hb
        rcases List.mem_cons.mp hb with rfl | hmem
        · exact he
        · exact hpre b hmem
      · simp only [markRateLimited, he, if_neg, List.cons_append]
        simp [he, hres]

/-- C8 witness: a concrete pool containing the target email. -/
theorem c8_witness :
    (markRateLimited ⟨30000⟩ 100 [mkAccount "u" false none []] "u" (some 500) "M").2 = true :=
  (c8_markRateLimited_spec ⟨30000⟩ 100 [mkAccount "u" false none []] "u" (some 500) "M"
    ⟨mkAccount "u" false none [], by simp, rfl⟩).1

/-- C9 counterexample: on the empty pool with an absent model,
`isAllRateLimited` returns `true` — the empty-pool rule wins over the
absent-model rule, contradicting the claim's "returns false whenever the model
argument is absent/null". -/
theorem c9_counterexample : isAllRateLimited 0 ([] : List Account) none = true := by decide

/-- C9 (amended): `isAllRateLimited` is true on the empty pool regardless of
model; on a non-empty pool it is false when the model is absent (or the empty
string), and with a present non-empty model it is true exactly when every
account is invalid, disabled, or holds an entry for the model flagged
rate-limited with `resetTime` strictly in the future. -/
theorem c9_isAllRateLimited_spec (now : Int) (accounts : List Account)
    (modelId : Option String) :
    (accounts = [] → isAllRateLimited now accounts modelId = true) ∧
    (accounts ≠ [] → strTruthy modelId = false →
      isAllRateLimited now accounts modelId = false) ∧
    (∀ m : String, modelId = some m → m ≠ "" → accounts ≠ [] →
      (isAllRateLimited now accounts modelId = true ↔
        ∀ a ∈ accounts, a.isInvalid = true ∨ a.enabled = some false ∨
          ∃ l, lookupAssoc m a.modelRateLimits = some l ∧
            l.isRateLimited = true ∧ now < l.resetTime.getD 0)) := by
  refine ⟨fun h => by subst h; rfl, fun hne hf => ?_, fun m hm hm2 hne => ?_⟩
  · cases accounts with
    | nil => exact absurd rfl hne
    | cons a l => simp [isAllRateLimited, hf]
  · subst hm
    have hperacc : ∀ a : Account,
        (a.isInvalid || a.enabled == some false ||
          (match lookupAssoc m a.modelRateLimits with
           | some limit => limit.isRateLimited && decide ((limit.resetTime.getD 0) > now)
           | none => false)) = true ↔
        (a.isInvalid = true ∨ a.enabled = some false ∨
          ∃ l, lookupAssoc m a.modelRateLimits = some l ∧
            l.isRateLimited = true ∧ now < l.resetTime.getD 0) := by
      intro a
      cases hl : lookupAssoc m a.modelRateLimits with
      | none => simp [hl]
      | some l => simp [hl, gt_iff_lt, or_assoc]
    cases accounts with
    | nil => exact absurd rfl hne
    | cons a0 l =>
      have hst : strTruthy (some m) = true := by simp [strTruthy, hm2]
      have hunf : isAllRateLimited now (a0 :: l) (some m) =
          (a0 :: l).all fun acc =>
            acc.isInvalid || acc.enabled == some false ||
              (match lookupAssoc m acc.modelRateLimits with
               | some limit => limit.isRateLimited && decide ((limit.resetTime.getD 0) > now)
               | none => false) := by
        simp [isAllRateLimited, hst]
      rw [hunf, List.all_eq_true]
      exact ⟨fun hall a ha => (hperacc a).mp (hall a ha),
             fun hall a ha => (hperacc a).mpr (hall a ha)⟩

/-- C9 witness: the amended characterization applied at a concrete non-empty
pool. -/
theorem c9_witness :
    isAllRateLimited 5 [mkAccount "w" false none [("M", ⟨true, some 9, some 9⟩)]]
      (some "M") = true :=
  ((c9_isAllRateLimited_spec 5 [mkAccount "w" false none [("M", ⟨true, some 9, some 9⟩)]]
      (some "M")).2.2 "M" rfl (by decide) (by simp)).mpr
    (by
      intro a ha
      simp only [List.mem_singleton] at ha
      subst ha
      exact Or.inr (Or.inr ⟨⟨true, some 9, some 9⟩, by decide, rfl, by decide⟩))

/-! ## Streaming translator (`streamSSEResponse`, SSE streamer for Cloud Code)

The embedding works on the stream of already-parsed `data:` JSON chunks (the
byte-buffering, line-splitting and JSON parsing layer of the source is the
transport; malformed lines are skipped there and never reach the part loop).
`MIN_SIGNATURE_LENGTH` and `getModelFamily` come from a `constants` module
that is not part of the source tree, so the minimum length and the model
family are carried as abstract configuration.  The signature caches
(`cacheSignature`, `cacheThinkingSignature`, also not in the source tree) are
modelled from the spec: maps keyed by tool-call id, respectively by model
family, that receive the cached signature. -/

/-- The content-block kinds tracked by `currentBlockType`. -/
inductive BlockType
  | thinking
  | textBlock
  | toolUse
  | image
deriving DecidableEq, Repr

/-- `stop_reason` values resolved by the streamer. -/
inductive StopReason
  | toolUse
  | maxTokens
  | endTurn
deriving DecidableEq, Repr

/-- The Anthropic-format events yielded by `streamSSEResponse`, with the
delta-bearing events flattened (`content_block_delta` with a
`thinking_delta` payload is `thinkingDelta`, and so on). -/
inductive SseEvent
  | messageStart (inputTokens : Int) (cacheRead : Nat)
  | startThinking (index : Nat)
  | startText (index : Nat)
  | startToolUse (index : Nat) (id name : String) (sig : Option String)
  | startImage (index : Nat) (mime data : String)
  | contentBlockStop (index : Nat)
  | thinkingDelta (index : Nat) (text : String)
  | signatureDelta (index : Nat) (signature : String)
  | textDelta (index : Nat) (text : String)
  | inputJsonDelta (index : Nat) (json : String)
  | messageDelta (stop : StopReason) (outputTokens cacheRead : Nat)
  | messageStop
deriving DecidableEq, Repr

/-- One normalized content part of an upstream chunk, by the priority the
part loop checks: `thought === true` first, then `text !== undefined`, then
`functionCall`, then `inlineData`; `invalid` is a non-object entry (skipped,
but still counted by `parts.length`).  String coercions (`String(x || '')`)
are already applied, and the function-call arguments carry their
`JSON.stringify` serialization. -/
inductive Part
  | thought (text signature : String)
  | textPart (text : String)
  | functionCall (id : Option String) (name : String) (argsJson : String) (signature : String)
  | inlineData (mime data : String)
  | invalid
deriving DecidableEq, Repr

/-- One parsed `data:` chunk: the first candidate's parts, its
`finishReason`, and the `usageMetadata` counters (absent or zero counters
leave the running totals unchanged, mirroring `Number(x) || prev`). -/
structure Chunk where
  parts : List Part
  finishReason : Option String
  promptTokenCount : Option Nat
  candidatesTokenCount : Option Nat
  cachedContentTokenCount : Option Nat
deriving DecidableEq, Repr

/-- The per-call mutable state of `streamSSEResponse`.  `sigCache` and
`thinkingSigCache` stand for the external signature-cache module (modelled
from the spec: keyed by tool-call id, respectively model family), and
`genCounter` numbers the ids generated for function calls that arrive
without one. -/
structure StreamState where
  hasEmittedStart : Bool := false
  blockIndex : Nat := 0
  currentBlockType : Option BlockType := none
  currentThinkingSignature : String := ""
  inputTokens : Nat := 0
  outputTokens : Nat := 0
  cacheReadTokens : Nat := 0
  stopReason : Option StopReason := none
  genCounter : Nat := 0
  sigCache : List (String × String) := []
  thinkingSigCache : List (String × String) := []
deriving DecidableEq, Repr

/-- Configuration of the streamer: the `MIN_SIGNATURE_LENGTH` constant and
the `getModelFamily(originalModel)` result, both imported by the source from
the constants module that is not part of the source tree. -/
structure StreamConfig where
  minSignatureLength : Nat
  modelFamily : String
deriving DecidableEq, Repr

/-- Flush a pending thinking signature as a `signature_delta` (the
`currentBlockType === 'thinking' && currentThinkingSignature` pattern). -/
def flushSignature (s : StreamState) : List SseEvent × StreamState :=
  if s.currentBlockType = some BlockType.thinking ∧ s.currentThinkingSignature ≠ "" then
    ([SseEvent.signatureDelta s.blockIndex s.currentThinkingSignature],
     { s with currentThinkingSignature := "" })
  else ([], s)

/-- Close the currently open block (`currentBlockType !== null`): emit its
`content_block_stop` and advance `blockIndex`. -/
def closeBlock (s : StreamState) : List SseEvent × StreamState :=
  if s.currentBlockType ≠ none then
    ([SseEvent.contentBlockStop s.blockIndex], { s with blockIndex := s.blockIndex + 1 })
  else ([], s)

/-- Resolve the tool-call id: `String(functionCall.id || crypto-random)`; the
randomly generated ids become deterministic fresh ids numbered by
`genCounter`. -/
def resolveToolId (s : StreamState) : Option String → String × StreamState
  | some i => if i = "" then ("toolu_gen" ++ toString s.genCounter,
      { s with genCounter := s.genCounter + 1 }) else (i, s)
  | none => ("toolu_gen" ++ toString s.genCounter, { s with genCounter := s.genCounter + 1 })

/-- The body of the part loop of `streamSSEResponse` (source lines 97-263)
for a single part. -/
def processPart (cfg : StreamConfig) (s : StreamState) : Part → List SseEvent × StreamState
  | Part.thought t sig =>
    let r1 :=
      if s.currentBlockType ≠ some BlockType.thinking then
        let r0 := closeBlock s
        (r0.1 ++ [SseEvent.startThinking r0.2.blockIndex],
         { r0.2 with currentBlockType := some BlockType.thinking,
                     currentThinkingSignature := "" })
      else ([], s)
    let s2 :=
      if sig ≠ "" ∧ cfg.minSignatureLength ≤ sig.length then
        { r1.2 with currentThinkingSignature := sig,
                    thinkingSigCache := (cfg.modelFamily, sig) :: r1.2.thinkingSigCache }
      else r1.2
    (r1.1 ++ [SseEvent.thinkingDelta s2.blockIndex t], s2)
  | Part.textPart t =>
    if t = "" then ([], s)
    else
      let r1 :=
        if s.currentBlockType ≠ some BlockType.textBlock then
          let rSig := flushSignature s
          let rStop := closeBlock rSig.2
          (rSig.1 ++ rStop.1 ++ [SseEvent.startText rStop.2.blockIndex],
           { rStop.2 with currentBlockType := some BlockType.textBlock })
        else ([], s)
      (r1.1 ++ [SseEvent.textDelta r1.2.blockIndex t], r1.2)
  | Part.functionCall id name argsJson sig =>
    let rSig := flushSignature s
    let rStop := closeBlock rSig.2
    let s1 := { rStop.2 with currentBlockType := some BlockType.toolUse,
                             stopReason := some StopReason.toolUse }
    let rId := resolveToolId s1 id
    let attach := sig ≠ "" ∧ cfg.minSignatureLength ≤ sig.length
    let s3 := if attach then { rId.2 with sigCache := (rId.1, sig) :: rId.2.sigCache }
      else rId.2
    (rSig.1 ++ rStop.1 ++
      [SseEvent.startToolUse s3.blockIndex rId.1 name (if attach then some sig else none),
       SseEvent.inputJsonDelta s3.blockIndex argsJson], s3)
  | Part.inlineData mime data =>
    let rSig := flushSignature s
    let rStop := closeBlock rSig.2
    let s1 := { rStop.2 with currentBlockType := some BlockType.image }
    (rSig.1 ++ rStop.1 ++
      [SseEvent.startImage s1.blockIndex mime data,
       SseEvent.contentBlockStop s1.blockIndex],
     { s1 with blockIndex := s1.blockIndex + 1, currentBlockType := none })
  | Part.invalid => ([], s)

/-- The part loop folded over one chunk's parts. -/
def processParts (cfg : StreamConfig) (s : StreamState) : List Part → List SseEvent × StreamState
  | [] => ([], s)
  | p :: rest =>
    let r1 := processPart cfg s p
    let r2 := processParts cfg r1.2 rest
    (r1.1 ++ r2.1, r2.2)

/-- `Number(x) || prev`: an absent or zero counter keeps the running total. -/
def usageOr (v : Option Nat) (prev : Nat) : Nat :=
  match v with
  | some n => if n = 0 then prev else n
  | none => prev

/-- Usage-metadata update at the top of the chunk handler (source lines
60-65): each running total is replaced only by a truthy counter. -/
def applyUsage (c : Chunk) (s : StreamState) : StreamState :=
  { s with
    inputTokens := usageOr c.promptTokenCount s.inputTokens,
    outputTokens := usageOr c.candidatesTokenCount s.outputTokens,
    cacheReadTokens := usageOr c.cachedContentTokenCount s.cacheReadTokens }

/-- `message_start` emission on the first chunk carrying any parts (source
lines 74-94); `input_tokens` is the prompt total minus the cached total. -/
def emitStart (c : Chunk) (s : StreamState) : List SseEvent × StreamState :=
  if s.hasEmittedStart = false ∧ c.parts ≠ [] then
    ([SseEvent.messageStart ((s.inputTokens : Int) - (s.cacheReadTokens : Int))
        s.cacheReadTokens],
     { s with hasEmittedStart := true })
  else ([], s)

/-- `finishReason` mapping after the part loop (source lines 267-273),
applied only when no tool call already set the stop reason. -/
def applyFinishReason (c : Chunk) (s : StreamState) : StreamState :=
  match c.finishReason, s.stopReason with
  | some fr, none =>
    if fr = "MAX_TOKENS" then { s with stopReason := some StopReason.maxTokens }
    else if fr = "STOP" then { s with stopReason := some StopReason.endTurn }
    else s
  | _, _ => s

/-- Processing of one parsed `data:` chunk (source lines 55-278): update the
usage totals, emit `message_start` on the first chunk carrying any parts,
run the part loop, then map `finishReason` unless a tool call already fixed
the stop reason. -/
def processChunk (cfg : StreamConfig) (s : StreamState) (c : Chunk) :
    List SseEvent × StreamState :=
  let r1 := emitStart c (applyUsage c s)
  let r2 := processParts cfg r1.2 c.parts
  (r1.1 ++ r2.1, applyFinishReason c r2.2)

/-- The chunk loop folded over the whole stream. -/
def processChunks (cfg : StreamConfig) (s : StreamState) :
    List Chunk → List SseEvent × StreamState
  | [] => ([], s)
  | c :: rest =>
    let r1 := processChunk cfg s c
    let r2 := processChunks cfg r1.2 rest
    (r1.1 ++ r2.1, r2.2)

/-- Result of a full run of the streaming translator: the yielded events,
whether `EmptyResponseError` was thrown at stream end, and the final state. -/
structure StreamResult where
  events : List SseEvent
  errored : Bool
  finalState : StreamState
deriving DecidableEq, Repr

/-- `streamSSEResponse` over a fully consumed stream of parsed chunks
(source lines 21-312): run the chunk loop; if no `message_start` was ever
emitted, throw `EmptyResponseError`; otherwise flush a pending thinking
signature, close the still-open block, and emit the final `message_delta`
(with the resolved stop reason, `end_turn` by default) and `message_stop`. -/
def runStream (cfg : StreamConfig) (chunks : List Chunk) : StreamResult :=
  let r := processChunks cfg {} chunks
  if r.2.hasEmittedStart = false then
    { events := r.1, errored := true, finalState := r.2 }
  else
    let rEnd :=
      match r.2.currentBlockType with
      | none => (([] : List SseEvent), r.2)
      | some bt =>
        let rSig :=
          if bt = BlockType.thinking ∧ r.2.currentThinkingSignature ≠ "" then
            ([SseEvent.signatureDelta r.2.blockIndex r.2.currentThinkingSignature], r.2)
          else ([], r.2)
        (rSig.1 ++ [SseEvent.contentBlockStop rSig.2.blockIndex], rSig.2)
    { events := r.1 ++ rEnd.1 ++
        [SseEvent.messageDelta (rEnd.2.stopReason.getD StopReason.endTurn)
          rEnd.2.outputTokens rEnd.2.cacheReadTokens,
         SseEvent.messageStop],
      errored := false,
      finalState := rEnd.2 }

/-- Number of `message_start` events in a list. -/
def countMessageStart (es : List SseEvent) : Nat :=
  es.countP fun e => match e with | SseEvent.messageStart _ _ => true | _ => false

/-- One step of the well-nestedness checker.  The checker state is
`(nextIndex, open)`: a `content_block_start` is legal only when no block is
open and its index is exactly `nextIndex` (so starts carry indices
`0, 1, 2, …`); a `content_block_stop` is legal only when a block is open and
carries the open block's index, and it bumps `nextIndex`.  Other events are
neutral.  `none` is the failure state. -/
def scanStep : Option (Nat × Bool) → SseEvent → Option (Nat × Bool)
  | none, _ => none
  | some st, SseEvent.startThinking i =>
    if st.2 = false ∧ i = st.1 then some (st.1, true) else none
  | some st, SseEvent.startText i =>
    if st.2 = false ∧ i = st.1 then some (st.1, true) else none
  | some st, SseEvent.startToolUse i _ _ _ =>
    if st.2 = false ∧ i = st.1 then some (st.1, true) else none
  | some st, SseEvent.startImage i _ _ =>
    if st.2 = false ∧ i = st.1 then some (st.1, true) else none
  | some st, SseEvent.contentBlockStop i =>
    if st.2 = true ∧ i = st.1 then some (st.1 + 1, false) else none
  | some st, _ => some st

/-- The well-nestedness checker over a whole event list. -/
def scanEvs (es : List SseEvent) (o : Option (Nat × Bool)) : Option (Nat × Bool) :=
  es.foldl scanStep o

/-- An event sequence is well-nested when the checker accepts it from index 0
with no block open and ends with no block open. -/
def wellNested (es : List SseEvent) : Prop :=
  ∃ n, scanEvs es (some (0, false)) = some (n, false)

/-- The checker state corresponding to a translator state: the next block
index and whether a block is open. -/
def stProj (s : StreamState) : Nat × Bool :=
  (s.blockIndex, s.currentBlockType.isSome)

lemma scanEvs_append (a b : List SseEvent) (o : Option (Nat × Bool)) :
    scanEvs (a ++ b) o = scanEvs b (scanEvs a o) :=
  List.foldl_append _ _ _ _

lemma countMessageStart_append (a b : List SseEvent) :
    countMessageStart (a ++ b) = countMessageStart a + countMessageStart b :=
  List.countP_append _ _ _

lemma processPart_scan (cfg : StreamConfig) (s : StreamState) (p : Part) :
    scanEvs (processPart cfg s p).1 (some (stProj s)) =
      some (stProj (processPart cfg s p).2) ∧
    countMessageStart (processPart cfg s p).1 = 0 ∧
    (processPart cfg s p).2.hasEmittedStart = s.hasEmittedStart := by
  cases p with
  | thought t sig =>
    by_cases hbt : s.currentBlockType = some BlockType.thinking
    · by_cases hc : sig ≠ "" ∧ cfg.minSignatureLength ≤ sig.length <;>
        simp [processPart, hbt, hc, scanEvs, scanStep, stProj, countMessageStart]
    · by_cases hn : s.currentBlockType = none
      · by_cases hc : sig ≠ "" ∧ cfg.minSignatureLength ≤ sig.length <;>
          simp [processPart, closeBlock, hbt, hn, hc, scanEvs, scanStep, stProj,
            countMessageStart]
      · by_cases hc : sig ≠ "" ∧ cfg.minSignatureLength ≤ sig.length <;>
          simp [processPart, closeBlock, hbt, hn, hc, scanEvs, scanStep, stProj,
            countMessageStart, Option.isSome_iff_ne_none]
  | textPart t =>
    by_cases ht : t = ""
    · simp [processPart, ht, scanEvs, scanStep, countMessageStart]
    · by_cases hbt : s.currentBlockType = some BlockType.textBlock
      · simp [processPart, ht, hbt, scanEvs, scanStep, stProj, countMessageStart]
      · by_cases hf : s.currentBlockType = some BlockType.thinking ∧
            s.currentThinkingSignature ≠ ""
        · simp [processPart, flushSignature, closeBlock, ht, hbt, hf, hf.1, scanEvs,
            scanStep, stProj, countMessageStart]
        · by_cases hn : s.currentBlockType = none
          · simp [processPart, flushSignature, closeBlock, ht, hbt, hf, hn, scanEvs,
              scanStep, stProj, countMessageStart]
          · simp [processPart, flushSignature, closeBlock, ht, hbt, hf, hn, scanEvs,
              scanStep, stProj, countMessageStart, Option.isSome_iff_ne_none]
  | functionCall id name argsJson sig =>
    by_cases hf : s.currentBlockType = some BlockType.thinking ∧
        s.currentThinkingSignature ≠ ""
    · by_cases hc : sig ≠ "" ∧ cfg.minSignatureLength ≤ sig.length <;>
        cases id with
        | some i =>
          by_cases hi : i = "" <;>
            simp [processPart, flushSignature, closeBlock, resolveToolId, hf, hf.1, hc,
              hi, scanEvs, scanStep, stProj, countMessageStart]
        | none =>
          simp [processPart, flushSignature, closeBlock, resolveToolId, hf, hf.1, hc,
            scanEvs, scanStep, stProj, countMessageStart]
    · by_cases hn : s.currentBlockType = none
      · by_cases hc : sig ≠ "" ∧ cfg.minSignatureLength ≤ sig.length <;>
          cases id with
          | some i =>
            by_cases hi : i = "" <;>
              simp [processPart, flushSignature, closeBlock, resolveToolId, hf, hn, hc,
                hi, scanEvs, scanStep, stProj, countMessageStart]
          | none =>
            simp [processPart, flushSignature, closeBlock, resolveToolId, hf, hn, hc,
              scanEvs, scanStep, stProj, countMessageStart]
      · by_cases hc : sig ≠ "" ∧ cfg.minSignatureLength ≤ sig.length <;>
          cases id with
          | some i =>
            by_cases hi : i = "" <;>
              simp [processPart, flushSignature, closeBlock, resolveToolId, hf, hn, hc,
                hi, scanEvs, scanStep, stProj, countMessageStart,
                Option.isSome_iff_ne_none]
          | none =>
            simp [processPart, flushSignature, closeBlock, resolveToolId, hf, hn, hc,
              scanEvs, scanStep, stProj, countMessageStart, Option.isSome_iff_ne_none]
  | inlineData mime data =>
    by_cases hf : s.currentBlockType = some BlockType.thinking ∧
        s.currentThinkingSignature ≠ ""
    · simp [processPart, flushSignature, closeBlock, hf, hf.1, scanEvs, scanStep,
        stProj, countMessageStart]
    · by_cases hn : s.currentBlockType = none
      · simp [processPart, flushSignature, closeBlock, hf, hn, scanEvs, scanStep,
          stProj, countMessageStart]
      · simp [processPart, flushSignature, closeBlock, hf, hn, scanEvs, scanStep,
          stProj, countMessageStart, Option.isSome_iff_ne_none]
  | invalid => simp [processPart, scanEvs, scanStep, countMessageStart]

lemma processParts_scan (cfg : StreamConfig) :
    ∀ (ps : List Part) (s : StreamState),
      scanEvs (processParts cfg s ps).1 (some (stProj s)) =
        some (stProj (processParts cfg s ps).2) ∧
      countMessageStart (processParts cfg s ps).1 = 0 ∧
      (processParts cfg s ps).2.hasEmittedStart = s.hasEmittedStart := by
  intro ps
  induction ps with
  | nil => intro s; simp [processParts, scanEvs, countMessageStart]
  | cons p rest ih =>
    intro s
    obtain ⟨h1, h2, h3⟩ := processPart_scan cfg s p
    obtain ⟨g1, g2, g3⟩ := ih (processPart cfg s p).2
    refine ⟨?_, ?_, ?_⟩
    · simp only [processParts, scanEvs_append, h1, g1]
    · simp only [processParts, countMessageStart_append, h2, g2]
    · simp only [processParts, g3, h3]

lemma applyUsage_stProj (c : Chunk) (s : StreamState) :
    stProj (applyUsage c s) = stProj s := rfl

lemma applyUsage_start (c : Chunk) (s : StreamState) :
    (applyUsage c s).hasEmittedStart = s.hasEmittedStart := rfl

lemma applyFinishReason_stProj (c : Chunk) (s : StreamState) :
    stProj (applyFinishReason c s) = stProj s := by
  rcases hf : c.finishReason with _ | fr <;> rcases hsr : s.stopReason with _ | sr <;>
    simp only [applyFinishReason, hf, hsr]
  all_goals first
    | rfl
    | (split_ifs <;> rfl)

lemma applyFinishReason_start (c : Chunk) (s : StreamState) :
    (applyFinishReason c s).hasEmittedStart = s.hasEmittedStart := by
  rcases hf : c.finishReason with _ | fr <;> rcases hsr : s.stopReason with _ | sr <;>
    simp only [applyFinishReason, hf, hsr]
  all_goals first
    | rfl
    | (split_ifs <;> rfl)

lemma emitStart_scan (c : Chunk) (s : StreamState) :
    scanEvs (emitStart c s).1 (some (stProj s)) = some (stProj (emitStart c s).2) ∧
    countMessageStart (emitStart c s).1 =
      (if s.hasEmittedStart = false ∧ c.parts ≠ [] then 1 else 0) ∧
    (emitStart c s).2.hasEmittedStart = (s.hasEmittedStart || decide (c.parts ≠ [])) ∧
    stProj (emitStart c s).2 = stProj s := by
  by_cases h : s.hasEmittedStart = false ∧ c.parts ≠ []
  · simp [emitStart, h, scanEvs, scanStep, countMessageStart, stProj, h.1, h.2]
  · refine ⟨by simp [emitStart, h, scanEvs], by simp [emitStart, h, countMessageStart],
      ?_, by simp [emitStart, h]⟩
    simp only [emitStart, h, if_neg, not_false_eq_true]
    rcases Decidable.not_and_iff_or_not.mp h with h2 | h2
    · have hse : s.hasEmittedStart = true := by
        cases hh : s.hasEmittedStart
        · exact absurd hh h2
        · rfl
      simp [hse]
    · simp [not_not.mp h2]

lemma processChunk_scan (cfg : StreamConfig) (s : StreamState) (c : Chunk) :
    scanEvs (processChunk cfg s c).1 (some (stProj s)) =
      some (stProj (processChunk cfg s c).2) ∧
    countMessageStart (processChunk cfg s c).1 =
      (if s.hasEmittedStart = false ∧ c.parts ≠ [] then 1 else 0) ∧
    (processChunk cfg s c).2.hasEmittedStart =
      (s.hasEmittedStart || decide (c.parts ≠ [])) ∧
    (c.parts = [] → (processChunk cfg s c).1 = []) := by
  obtain ⟨e1, e2, e3, e4⟩ := emitStart_scan c (applyUsage c s)
  obtain ⟨p1, p2, p3⟩ := processParts_scan cfg c.parts (emitStart c (applyUsage c s)).2
  refine ⟨?_, ?_, ?_, ?_⟩
  · simp only [processChunk, scanEvs_append]
    rw [← applyUsage_stProj c s, e1, p1, applyFinishReason_stProj]
  · simp only [processChunk, countMessageStart_append, e2, p2, Nat.add_zero,
      applyUsage_start]
  · simp only [processChunk, applyFinishReason_start, p3, e3, applyUsage_start]
  · intro hp
    have he : emitStart c (applyUsage c s) = ([], applyUsage c s) := by
      simp [emitStart, hp]
    simp [processChunk, he, hp, processParts]

lemma processChunks_inv (cfg : StreamConfig) :
    ∀ (cs : List Chunk) (s : StreamState),
      scanEvs (processChunks cfg s cs).1 (some (stProj s)) =
        some (stProj (processChunks cfg s cs).2) ∧
      (processChunks cfg s cs).2.hasEmittedStart =
        (s.hasEmittedStart || cs.any fun c => decide (c.parts ≠ [])) ∧
      countMessageStart (processChunks cfg s cs).1 =
        (if s.hasEmittedStart then 0
         else if cs.any fun c => decide (c.parts ≠ []) then 1 else 0) ∧
      ((s.hasEmittedStart = false ∧ ∀ c ∈ cs, c.parts = []) →
        (processChunks cfg s cs).1 = []) := by
  intro cs
  induction cs with
  | nil =>
    intro s
    refine ⟨by simp [processChunks, scanEvs], by simp [processChunks], ?_, ?_⟩
    · cases hse : s.hasEmittedStart <;> simp [processChunks, countMessageStart, hse]
    · intro _; simp [processChunks]
  | cons c rest ih =>
    intro s
    obtain ⟨h1, h2, h3, h4⟩ := processChunk_scan cfg s c
    obtain ⟨g1, g2, g3, g4⟩ := ih (processChunk cfg s c).2
    refine ⟨?_, ?_, ?_, ?_⟩
    · simp only [processChunks, scanEvs_append, h1, g1]
    · simp only [processChunks, g2, h3, List.any_cons]
      rw [Bool.or_assoc]
    · simp only [processChunks, countMessageStart_append, h2, g3, h3, List.any_cons]
      cases hse : s.hasEmittedStart
      · by_cases hpe : c.parts = [] <;> simp [hse, hpe]
      · simp [hse]
    · intro ⟨hse, hall⟩
      have hce : c.parts = [] := hall c (by simp)
      have hflag2 : (processChunk cfg s c).2.hasEmittedStart = false := by
        rw [h3, hse, hce]
        simp
      simp only [processChunks]
      rw [h4 hce, g4 ⟨hflag2, fun d hd => hall d (by simp [hd])⟩]
      rfl

/-- C10: in every event sequence produced by a fully consumed streaming
translation, content-block events are well-nested: starts carry indices
`0, 1, 2, …`, each `content_block_start` at index `i` is matched by exactly
one `content_block_stop` at index `i` before any start at `i+1`, at most one
block is open at any point, and no block is left open at the end. -/
theorem c10_well_nested (cfg : StreamConfig) (chunks : List Chunk) :
    wellNested (runStream cfg chunks).events := by
  obtain ⟨h1, h2, h3, h4⟩ := processChunks_inv cfg chunks ({} : StreamState)
  by_cases hflag : (processChunks cfg ({} : StreamState) chunks).2.hasEmittedStart = false
  · have hany : (chunks.any fun c => decide (c.parts ≠ [])) = false := by
      rw [h2] at hflag
      simpa using hflag
    have hall : ∀ c ∈ chunks, c.parts = [] := by
      intro c hc
      by_contra hne
      have : (chunks.any fun c => decide (c.parts ≠ [])) = true :=
        List.any_eq_true.mpr ⟨c, hc, by simpa using hne⟩
      rw [this] at hany
      exact absurd hany (by simp)
    have hevs : (processChunks cfg ({} : StreamState) chunks).1 = [] := h4 ⟨rfl, hall⟩
    refine ⟨0, ?_⟩
    simp [runStream, hflag, hevs, scanEvs]
  · have hflag2 : (processChunks cfg ({} : StreamState) chunks).2.hasEmittedStart = true := by
      cases hse : (processChunks cfg ({} : StreamState) chunks).2.hasEmittedStart
      · exact absurd hse hflag
      · rfl
    set r := processChunks cfg ({} : StreamState) chunks with hr
    have hscan0 : scanEvs r.1 (some (0, false)) = some (stProj r.2) := by
      have h0 : stProj ({} : StreamState) = (0, false) := rfl
      rw [← h0]
      exact h1
    rcases hbt : r.2.currentBlockType with _ | bt
    · have hclosed : stProj r.2 = (r.2.blockIndex, false) := by simp [stProj, hbt]
      have hev : (runStream cfg chunks).events =
          r.1 ++ [SseEvent.messageDelta (r.2.stopReason.getD StopReason.endTurn)
            r.2.outputTokens r.2.cacheReadTokens, SseEvent.messageStop] := by
        simp [runStream, ← hr, hflag2, hbt]
      refine ⟨r.2.blockIndex, ?_⟩
      rw [hev, scanEvs_append, hscan0, hclosed]
      simp [scanEvs, scanStep]
    · have hopen : stProj r.2 = (r.2.blockIndex, true) := by simp [stProj, hbt]
      refine ⟨r.2.blockIndex + 1, ?_⟩
      by_cases hsg : bt = BlockType.thinking ∧ r.2.currentThinkingSignature ≠ ""
      · have hev : (runStream cfg chunks).events =
            r.1 ++ [SseEvent.signatureDelta r.2.blockIndex r.2.currentThinkingSignature,
              SseEvent.contentBlockStop r.2.blockIndex,
              SseEvent.messageDelta (r.2.stopReason.getD StopReason.endTurn)
                r.2.outputTokens r.2.cacheReadTokens, SseEvent.messageStop] := by
          simp [runStream, ← hr, hflag2, hbt, hsg]
        rw [hev, scanEvs_append, hscan0, hopen]
        simp [scanEvs, scanStep]
      · have hev : (runStream cfg chunks).events =
            r.1 ++ [SseEvent.contentBlockStop r.2.blockIndex,
              SseEvent.messageDelta (r.2.stopReason.getD StopReason.endTurn)
                r.2.outputTokens r.2.cacheReadTokens, SseEvent.messageStop] := by
          simp [runStream, ← hr, hflag2, hbt, hsg]
        rw [hev, scanEvs_append, hscan0, hopen]
        simp [scanEvs, scanStep]

/-- C2: a stream whose chunks carry zero content parts in total makes the
translator throw `EmptyResponseError` having emitted nothing at all (in
particular no `message_start`); as soon as some chunk carries at least one
part, exactly one `message_start` is emitted, no error is thrown, and the
stream ends with a `message_delta` carrying the resolved stop reason followed
by `message_stop`. -/
theorem c2_empty_response (cfg : StreamConfig) (chunks : List Chunk) :
    ((∀ c ∈ chunks, c.parts = []) →
      (runStream cfg chunks).errored = true ∧ (runStream cfg chunks).events = []) ∧
    ((∃ c ∈ chunks, c.parts ≠ []) →
      (runStream cfg chunks).errored = false ∧
      countMessageStart (runStream cfg chunks).events = 1 ∧
      ∃ pre o cr, (runStream cfg chunks).events =
        pre ++ [SseEvent.messageDelta
            ((runStream cfg chunks).finalState.stopReason.getD StopReason.endTurn) o cr,
          SseEvent.messageStop]) := by
  obtain ⟨h1, h2, h3, h4⟩ := processChunks_inv cfg chunks ({} : StreamState)
  constructor
  · intro hall
    have hany : (chunks.any fun c => decide (c.parts ≠ [])) = false := by
      rw [List.any_eq_false]
      intro c hc
      simp [hall c hc]
    have hflag : (processChunks cfg ({} : StreamState) chunks).2.hasEmittedStart = false := by
      rw [h2, hany]
      rfl
    have hevs : (processChunks cfg ({} : StreamState) chunks).1 = [] := h4 ⟨rfl, hall⟩
    constructor
    · simp [runStream, hflag]
    · simp [runStream, hflag, hevs]
  · intro ⟨c, hc, hcne⟩
    have hany : (chunks.any fun c => decide (c.parts ≠ [])) = true := by
      simp only [List.any_eq_true, decide_eq_true_eq]
      exact ⟨c, hc, hcne⟩
    have hflag : (processChunks cfg ({} : StreamState) chunks).2.hasEmittedStart = true := by
      rw [h2, hany]
      rfl
    set r := processChunks cfg ({} : StreamState) chunks with hr
    have hcount : countMessageStart r.1 = 1 := by
      rw [h3]
      simp only [hany]
      simp
    rcases hbt : r.2.currentBlockType with _ | bt
    · have hev : (runStream cfg chunks).events =
          r.1 ++ [SseEvent.messageDelta (r.2.stopReason.getD StopReason.endTurn)
            r.2.outputTokens r.2.cacheReadTokens, SseEvent.messageStop] := by
        simp [runStream, ← hr, hflag, hbt]
      have hfs : (runStream cfg chunks).finalState = r.2 := by
        simp [runStream, ← hr, hflag, hbt]
      refine ⟨by simp [runStream, ← hr, hflag, hbt], ?_, ?_⟩
      · rw [hev, countMessageStart_append, hcount]
        simp [countMessageStart]
      · refine ⟨r.1, r.2.outputTokens, r.2.cacheReadTokens, ?_⟩
        rw [hev, hfs]
    · by_cases hsg : bt = BlockType.thinking ∧ r.2.currentThinkingSignature ≠ ""
      · have hev : (runStream cfg chunks).events =
            r.1 ++ [SseEvent.signatureDelta r.2.blockIndex r.2.currentThinkingSignature,
              SseEvent.contentBlockStop r.2.blockIndex,
              SseEvent.messageDelta (r.2.stopReason.getD StopReason.endTurn)
                r.2.outputTokens r.2.cacheReadTokens, SseEvent.messageStop] := by
          simp [runStream, ← hr, hflag, hbt, hsg]
        have hfs : (runStream cfg chunks).finalState = r.2 := by
          simp [runStream, ← hr, hflag, hbt, hsg]
        refine ⟨by simp [runStream, ← hr, hflag, hbt, hsg], ?_, ?_⟩
        · rw [hev, countMessageStart_append, hcount]
          simp [countMessageStart]
        · refine ⟨r.1 ++ [SseEvent.signatureDelta r.2.blockIndex r.2.currentThinkingSignature,
            SseEvent.contentBlockStop r.2.blockIndex], r.2.outputTokens,
            r.2.cacheReadTokens, ?_⟩
          rw [hev, hfs]
          simp
      · have hev : (runStream cfg chunks).events =
            r.1 ++ [SseEvent.contentBlockStop r.2.blockIndex,
              SseEvent.messageDelta (r.2.stopReason.getD StopReason.endTurn)
                r.2.outputTokens r.2.cacheReadTokens, SseEvent.messageStop] := by
          simp [runStream, ← hr, hflag, hbt, hsg]
        have hfs : (runStream cfg chunks).finalState = r.2 := by
          simp [runStream, ← hr, hflag, hbt, hsg]
        refine ⟨by simp [runStream, ← hr, hflag, hbt, hsg], ?_, ?_⟩
        · rw [hev, countMessageStart_append, hcount]
          simp [countMessageStart]
        · refine ⟨r.1 ++ [SseEvent.contentBlockStop r.2.blockIndex], r.2.outputTokens,
            r.2.cacheReadTokens, ?_⟩
          rw [hev, hfs]
          simp

/-- C2 witness: both directions applied at concrete streams — a usage-only
stream errors with no events; a one-text-part stream succeeds. -/
theorem c2_witness :
    (runStream ⟨5, "gemini"⟩ [⟨[], some "STOP", some 7, some 3, some 2⟩]).errored = true ∧
    (runStream ⟨5, "gemini"⟩
      [⟨[Part.textPart "hi"], some "STOP", some 7, some 3, some 2⟩]).errored = false :=
  ⟨((c2_empty_response ⟨5, "gemini"⟩ [⟨[], some "STOP", some 7, some 3, some 2⟩]).1
      (by intro c hc; simp at hc; simp [hc])).1,
   ((c2_empty_response ⟨5, "gemini"⟩
      [⟨[Part.textPart "hi"], some "STOP", some 7, some 3, some 2⟩]).2
      ⟨⟨[Part.textPart "hi"], some "STOP", some 7, some 3, some 2⟩, by simp, by simp⟩).1⟩

/-- C1: for every stream consisting of a `thought` part whose continuation
signature reaches the minimum length, followed by a `functionCall` part with
an explicit id and a sibling signature of minimum length, the translator
emits, in order, `content_block_start(thinking)`,
`content_block_delta(thinking_delta)`, `content_block_delta(signature_delta)`,
`content_block_stop`, `content_block_start(tool_use)` and
`content_block_delta(input_json_delta)`, and afterwards the cached signature
keyed by the tool-call id is the signature received. -/
theorem c1_thinking_then_toolcall (cfg : StreamConfig) (t sig i name args fcSig : String)
    (hsig : sig ≠ "") (hsiglen : cfg.minSignatureLength ≤ sig.length)
    (hfc : fcSig ≠ "") (hfclen : cfg.minSignatureLength ≤ fcSig.length)
    (hid : i ≠ "") :
    [SseEvent.startThinking 0, SseEvent.thinkingDelta 0 t, SseEvent.signatureDelta 0 sig,
     SseEvent.contentBlockStop 0, SseEvent.startToolUse 1 i name (some fcSig),
     SseEvent.inputJsonDelta 1 args].Sublist
      (runStream cfg
        [⟨[Part.thought t sig, Part.functionCall (some i) name args fcSig],
          none, none, none, none⟩]).events ∧
    lookupAssoc i
      (runStream cfg
        [⟨[Part.thought t sig, Part.functionCall (some i) name args fcSig],
          none, none, none, none⟩]).finalState.sigCache = some fcSig := by
  have hev : (runStream cfg
      [⟨[Part.thought t sig, Part.functionCall (some i) name args fcSig],
        none, none, none, none⟩]).events =
      SseEvent.messageStart 0 0 ::
        ([SseEvent.startThinking 0, SseEvent.thinkingDelta 0 t, SseEvent.signatureDelta 0 sig,
          SseEvent.contentBlockStop 0, SseEvent.startToolUse 1 i name (some fcSig),
          SseEvent.inputJsonDelta 1 args] ++
         [SseEvent.contentBlockStop 1,
          SseEvent.messageDelta StopReason.toolUse 0 0, SseEvent.messageStop]) := by
    simp [runStream, processChunks, processChunk, processParts, processPart, applyUsage,
      emitStart, applyFinishReason, flushSignature, closeBlock, resolveToolId, usageOr,
      hsig, hsiglen, hfc, hfclen, hid]
  have hcache : (runStream cfg
      [⟨[Part.thought t sig, Part.functionCall (some i) name args fcSig],
        none, none, none, none⟩]).finalState.sigCache = [(i, fcSig)] := by
    simp [runStream, processChunks, processChunk, processParts, processPart, applyUsage,
      emitStart, applyFinishReason, flushSignature, closeBlock, resolveToolId, usageOr,
      hsig, hsiglen, hfc, hfclen, hid]
  refine ⟨?_, ?_⟩
  · rw [hev]
    exact (List.sublist_append_left _ _).trans (List.sublist_cons_self _ _)
  · rw [hcache]
    simp [lookupAssoc]

/-- C1 witness: the scenario theorem applied at a concrete stream. -/
theorem c1_witness :
    [SseEvent.startThinking 0, SseEvent.thinkingDelta 0 "plan", SseEvent.signatureDelta 0 "sigsigsig",
     SseEvent.contentBlockStop 0, SseEvent.startToolUse 1 "call1" "doit" (some "fcsigfcsig"),
     SseEvent.inputJsonDelta 1 "\x7b\x7d"].Sublist
      (runStream ⟨5, "gemini"⟩
        [⟨[Part.thought "plan" "sigsigsig",
           Part.functionCall (some "call1") "doit" "\x7b\x7d" "fcsigfcsig"],
          none, none, none, none⟩]).events ∧
    lookupAssoc "call1"
      (runStream ⟨5, "gemini"⟩
        [⟨[Part.thought "plan" "sigsigsig",
           Part.functionCall (some "call1") "doit" "\x7b\x7d" "fcsigfcsig"],
          none, none, none, none⟩]).finalState.sigCache = some "fcsigfcsig" :=
  c1_thinking_then_toolcall ⟨5, "gemini"⟩ "plan" "sigsigsig" "call1" "doit" "\x7b\x7d"
    "fcsigfcsig" (by decide) (by decide) (by decide) (by decide) (by decide)

/-! ## HybridStrategy (`strategies/hybrid-strategy.js`)

The strategy's collaborators — `BaseStrategy.isAccountUsable`, the
`HealthTracker`, `TokenBucketTracker` and `QuotaTracker` instances, and
`config.globalQuotaThreshold` — live in modules that are not part of the
source tree.  They are carried as an abstract `Trackers` record and every
theorem below quantifies over all of their behaviors, so the results hold for
the actual implementations in particular.  Token consumption is observed as
the list of `consume(email)` calls the selection makes (the only token-bucket
mutation inside `selectAccount`); the `lastUsed = Date.now()` stamp and the
`onSave` callback are outside every claim proved here. -/

/-- The fallback ladder of `#getCandidates`. -/
inductive FallbackLevel
  | normal
  | quota
  | emergency
  | lastResort
deriving DecidableEq, Repr

/-- The strategy's external collaborators, abstract: `BaseStrategy`
usability, the three trackers' query methods, and the global quota
threshold from `config.js`. -/
structure Trackers where
  isAccountUsable : Account → String → Bool
  healthIsUsable : String → Bool
  healthGetScore : String → Rat
  hasTokens : String → Bool
  getTokens : String → Rat
  getMaxTokens : Rat
  isQuotaCritical : Account → String → Option Rat → Bool
  quotaGetScore : Account → String → Rat
  getMinTimeUntilToken : List String → Int
  globalQuotaThreshold : Option Rat
  now : Int

/-- Scoring weights (`DEFAULT_WEIGHTS` merged with overrides). -/
structure Weights where
  health : Rat
  tokens : Rat
  quota : Rat
  lru : Rat
deriving DecidableEq, Repr

/-- The default scoring weights of `hybrid-strategy.js`. -/
def defaultWeights : Weights := ⟨2, 5, 3, 1/10⟩

/-- Threshold resolution of `#getCandidates`:
`account.modelQuotaThresholds?.[modelId] ?? account.quotaThreshold ??
(config.globalQuotaThreshold || undefined)`. -/
def effectiveThreshold (tr : Trackers) (a : Account) (m : String) : Option Rat :=
  match lookupAssoc m a.modelQuotaThresholds with
  | some t => some t
  | none =>
    match a.quotaThreshold with
    | some t => some t
    | none =>
      match tr.globalQuotaThreshold with
      | some g => if g = 0 then none else some g
      | none => none

/-- The `normal`-level filter: usable, healthy, has tokens, quota not
critical. -/
def passesNormal (tr : Trackers) (m : String) (a : Account) : Bool :=
  tr.isAccountUsable a m && tr.healthIsUsable a.email && tr.hasTokens a.email &&
    !(tr.isQuotaCritical a m (effectiveThreshold tr a m))

/-- The `quota`-fallback filter: the quota check is dropped. -/
def passesQuota (tr : Trackers) (m : String) (a : Account) : Bool :=
  tr.isAccountUsable a m && tr.healthIsUsable a.email && tr.hasTokens a.email

/-- The `emergency`-fallback filter: the health check is also dropped. -/
def passesEmergency (tr : Trackers) (m : String) (a : Account) : Bool :=
  tr.isAccountUsable a m && tr.hasTokens a.email

/-- The `lastResort` filter: only basic usability. -/
def passesLastResort (tr : Trackers) (m : String) (a : Account) : Bool :=
  tr.isAccountUsable a m

/-- The filter set belonging to a fallback level. -/
def passesLevel (tr : Trackers) (m : String) : FallbackLevel → Account → Bool
  | FallbackLevel.normal => passesNormal tr m
  | FallbackLevel.quota => passesQuota tr m
  | FallbackLevel.emergency => passesEmergency tr m
  | FallbackLevel.lastResort => passesLastResort tr m

/-- `accounts.map((account, index) => ({account, index}))`. -/
def withIndex : List Account → Nat → List (Account × Nat)
  | [], _ => []
  | a :: rest, i => (a, i) :: withIndex rest (i + 1)

/-- Result of `#getCandidates`: the surviving `{account, index}` pairs and
the fallback level used. -/
structure CandResult where
  candidates : List (Account × Nat)
  fallbackLevel : FallbackLevel
deriving Repr

/-- `#getCandidates` (source lines 152-234): try the four filter sets in
order, returning the first non-empty survivor list with its level. -/
def getCandidates (tr : Trackers) (accounts : List Account) (m : String) : CandResult :=
  let idx := withIndex accounts 0
  let c1 := idx.filter fun ai => passesNormal tr m ai.1
  if c1 ≠ [] then ⟨c1, FallbackLevel.normal⟩
  else
    let c2 := idx.filter fun ai => passesQuota tr m ai.1
    if c2 ≠ [] then ⟨c2, FallbackLevel.quota⟩
    else
      let c3 := idx.filter fun ai => passesEmergency tr m ai.1
      if c3 ≠ [] then ⟨c3, FallbackLevel.emergency⟩
      else
        let c4 := idx.filter fun ai => passesLastResort tr m ai.1
        if c4 ≠ [] then ⟨c4, FallbackLevel.lastResort⟩
        else ⟨[], FallbackLevel.normal⟩

/-- `#calculateScore` (source lines 240-265):
`health*Wh + (tokens/max*100)*Wt + quota*Wq + (min(now-lastUsed, 1h)/1000)*Wl`. -/
def calculateScore (tr : Trackers) (w : Weights) (a : Account) (m : String) : Rat :=
  tr.healthGetScore a.email * w.health +
    (tr.getTokens a.email / tr.getMaxTokens * 100) * w.tokens +
    tr.quotaGetScore a m * w.quota +
    ((min (tr.now - a.lastUsed) 3600000 : Int) : Rat) / 1000 * w.lru

/-- `scored.sort((a,b) => b.score - a.score); scored[0]`: the first element
with the maximal score (the sort is stable, so among score ties the earlier
candidate wins; the fold replaces the running best only on a strictly larger
score). -/
def pickBest : (Account × Nat × Rat) → List (Account × Nat × Rat) → Account × Nat × Rat
  | b, [] => b
  | b, x :: xs => pickBest (if b.2.2 < x.2.2 then x else b) xs

/-- The classification counters of `#diagnoseNoCandidates`, with the
`accountsWithoutTokens` email list. -/
structure DiagCounts where
  unusable : Nat := 0
  unhealthy : Nat := 0
  noTokens : Nat := 0
  critQuota : Nat := 0
  starved : List String := []
deriving DecidableEq, Repr

/-- The classification loop of `#diagnoseNoCandidates` (source lines
305-326): each account is binned by its first failing filter; an account
passing all filters is not counted. -/
def diagCounts (tr : Trackers) (m : String) : List Account → DiagCounts
  | [] => {}
  | a :: rest =>
    let r := diagCounts tr m rest
    if tr.isAccountUsable a m = false then { r with unusable := r.unusable + 1 }
    else if tr.healthIsUsable a.email = false then { r with unhealthy := r.unhealthy + 1 }
    else if tr.hasTokens a.email = false then
      { r with noTokens := r.noTokens + 1, starved := a.email :: r.starved }
    else if tr.isQuotaCritical a m (effectiveThreshold tr a m) = true then
      { r with critQuota := r.critQuota + 1 }
    else r

/-- `#diagnoseNoCandidates` (source lines 298-344): the wait is the minimum
time until a starved account regains a token only when some account is
token-starved and none is unusable or unhealthy; otherwise 0.  (The reason
string built alongside is log-only.) -/
def diagnoseNoCandidates (tr : Trackers) (accounts : List Account) (m : String) : Int :=
  let c := diagCounts tr m accounts
  if 0 < c.noTokens ∧ c.unusable = 0 ∧ c.unhealthy = 0 then
    tr.getMinTimeUntilToken c.starved
  else 0

/-- Result of `selectAccount`, extended with the chosen fallback level and
the trace of `consume(email)` calls made on the token bucket. -/
structure SelectionResult where
  account : Option Account
  index : Nat
  waitMs : Int
  fallbackLevel : FallbackLevel
  consumeCalls : List String

/-- `selectAccount` (source lines 61-115): empty pool returns nothing;
otherwise filter through the fallback ladder, diagnose when no candidate
survives anywhere, else score the candidates, pick the best, consume a token
unless the level is `lastResort`, and throttle by level. -/
def selectAccount (tr : Trackers) (w : Weights) (accounts : List Account)
    (m : String) : SelectionResult :=
  if accounts = [] then ⟨none, 0, 0, FallbackLevel.normal, []⟩
  else
    let gc := getCandidates tr accounts m
    match gc.candidates.map fun ci => (ci.1, ci.2, calculateScore tr w ci.1 m) with
    | [] => ⟨none, 0, diagnoseNoCandidates tr accounts m, gc.fallbackLevel, []⟩
    | b0 :: brest =>
      let best := pickBest b0 brest
      let consume := if gc.fallbackLevel ≠ FallbackLevel.lastResort then [best.1.email]
        else []
      let waitMs : Int :=
        match gc.fallbackLevel with
        | FallbackLevel.lastResort => 500
        | FallbackLevel.emergency => 250
        | _ => 0
      ⟨some best.1, best.2.1, waitMs, gc.fallbackLevel, consume⟩

section StrategyLemmas

lemma withIndex_mem : ∀ (l : List Account) (k : Nat) (a : Account),
    a ∈ l → ∃ i, (a, i) ∈ withIndex l k := by
  intro l
  induction l with
  | nil => intro k a ha; simp at ha
  | cons x xs ih =>
    intro k a ha
    rcases List.mem_cons.mp ha with rfl | hmem
    · exact ⟨k, by simp [withIndex]⟩
    · obtain ⟨i, hi⟩ := ih (k + 1) a hmem
      exact ⟨i, by simp [withIndex, hi]⟩

lemma getCandidates_empty (tr : Trackers) (accounts : List Account) (m : String)
    (h : (getCandidates tr accounts m).candidates = []) :
    ∀ a ∈ accounts, tr.isAccountUsable a m = false := by
  have hlast : (withIndex accounts 0).filter (fun ai => passesLastResort tr m ai.1) = [] := by
    simp only [getCandidates] at h
    split_ifs at h with h1 h2 h3 h4
    · exact absurd h h1
    · exact absurd h h2
    · exact absurd h h3
    · exact absurd h h4
    · exact not_not.mp h4
  intro a ha
  obtain ⟨i, hi⟩ := withIndex_mem accounts 0 a ha
  have := List.filter_eq_nil_iff.mp hlast _ hi
  simpa [passesLastResort] using this

lemma getCandidates_mem (tr : Trackers) (accounts : List Account) (m : String) :
    ∀ x ∈ (getCandidates tr accounts m).candidates,
      passesLevel tr m (getCandidates tr accounts m).fallbackLevel x.1 = true := by
  intro x hx
  simp only [getCandidates] at hx ⊢
  split_ifs at hx ⊢
  · exact (List.mem_filter.mp hx).2
  · exact (List.mem_filter.mp hx).2
  · exact (List.mem_filter.mp hx).2
  · exact (List.mem_filter.mp hx).2
  · simp at hx

lemma pickBest_mem : ∀ (l : List (Account × Nat × Rat)) (b : Account × Nat × Rat),
    pickBest b l ∈ b :: l := by
  intro l
  induction l with
  | nil => intro b; simp [pickBest]
  | cons x xs ih =>
    intro b
    simp only [pickBest]
    rcases List.mem_cons.mp (ih (if b.2.2 < x.2.2 then x else b)) with h1 | h1
    · rw [h1]
      by_cases hlt : b.2.2 < x.2.2 <;> simp [hlt]
    · exact List.mem_cons_of_mem _ (List.mem_cons_of_mem _ h1)

lemma diagCounts_all_unusable (tr : Trackers) (m : String) :
    ∀ accounts : List Account, (∀ a ∈ accounts, tr.isAccountUsable a m = false) →
      (diagCounts tr m accounts).noTokens = 0 := by
  intro accounts
  induction accounts with
  | nil => intro _; rfl
  | cons x xs ih =>
    intro hall
    have hx : tr.isAccountUsable x m = false := hall x (by simp)
    have hrest := ih fun a ha => hall a (by simp [ha])
    simp [diagCounts, hx, hrest]

end StrategyLemmas

/-- C4: whenever `selectAccount` finds no candidate at any fallback level,
every account falls into exactly one of the four diagnostic categories
(unusable/disabled, unhealthy, token-starved, critical-quota), and the
returned wait is the token tracker's minimum time-to-next-token exactly when
token starvation is the only blocking reason across the pool, and 0
otherwise.  (Under the hypothesis every account in fact fails basic
usability, so the only-starved case is vacuous and the wait is always 0.) -/
theorem c4_no_candidate_diagnosis (tr : Trackers) (w : Weights) (accounts : List Account)
    (m : String) (h : (getCandidates tr accounts m).candidates = []) :
    (∀ a ∈ accounts,
      ((if tr.isAccountUsable a m = false then 1 else 0) +
       (if tr.isAccountUsable a m = true ∧ tr.healthIsUsable a.email = false then 1 else 0) +
       (if tr.isAccountUsable a m = true ∧ tr.healthIsUsable a.email = true ∧
           tr.hasTokens a.email = false then 1 else 0) +
       (if tr.isAccountUsable a m = true ∧ tr.healthIsUsable a.email = true ∧
           tr.hasTokens a.email = true ∧
           tr.isQuotaCritical a m (effectiveThreshold tr a m) = true then 1 else 0) : Nat)
        = 1) ∧
    ((accounts ≠ [] ∧ ∀ a ∈ accounts, tr.isAccountUsable a m = true ∧
        tr.healthIsUsable a.email = true ∧ tr.hasTokens a.email = false) →
      (selectAccount tr w accounts m).waitMs =
        tr.getMinTimeUntilToken (diagCounts tr m accounts).starved) ∧
    (¬ (accounts ≠ [] ∧ ∀ a ∈ accounts, tr.isAccountUsable a m = true ∧
        tr.healthIsUsable a.email = true ∧ tr.hasTokens a.email = false) →
      (selectAccount tr w accounts m).waitMs = 0) := by
  have hall : ∀ a ∈ accounts, tr.isAccountUsable a m = false := getCandidates_empty tr accounts m h
  refine ⟨?_, ?_, ?_⟩
  · intro a ha
    simp [hall a ha]
  · intro ⟨hne, hB⟩
    exfalso
    rcases accounts with _ | ⟨a0, rest⟩
    · exact hne rfl
    · have h1 := (hB a0 (by simp)).1
      have h2 := hall a0 (by simp)
      rw [h1] at h2
      exact Bool.true_eq_false.mp h2 |>.elim
  · intro _
    rcases haccs : accounts with _ | ⟨a0, rest⟩
    · simp [selectAccount]
    · rw [haccs] at h hall
      have hzero : (diagCounts tr m (a0 :: rest)).noTokens = 0 :=
        diagCounts_all_unusable tr m (a0 :: rest) hall
      simp [selectAccount, h, diagnoseNoCandidates, hzero]

/-- C4 witness: a pool whose single account fails basic usability. -/
theorem c4_witness :
    (selectAccount
      ⟨fun _ _ => false, fun _ => true, fun _ => 100, fun _ => true, fun _ => 10, 10,
        fun _ _ _ => false, fun _ _ => 100, fun _ => 750, none, 0⟩
      defaultWeights [mkAccount "z" false none []] "M").waitMs = 0 :=
  (c4_no_candidate_diagnosis
    ⟨fun _ _ => false, fun _ => true, fun _ => 100, fun _ => true, fun _ => 10, 10,
      fun _ _ _ => false, fun _ _ => 100, fun _ => 750, none, 0⟩
    defaultWeights [mkAccount "z" false none []] "M" (by rfl)).2.2
    (by
      intro ⟨hne, hB⟩
      have := (hB (mkAccount "z" false none []) (by simp)).1
      simp at this)

/-- C5: a selected account always passes the filter set of the fallback level
it was selected at, and the selection consumes exactly one token from the
selected account's bucket unless the level is `lastResort`, in which case it
consumes none (the token-bucket state is untouched). -/
theorem c5_selection_filters_and_consume (tr : Trackers) (w : Weights)
    (accounts : List Account) (m : String) (a : Account)
    (h : (selectAccount tr w accounts m).account = some a) :
    passesLevel tr m (selectAccount tr w accounts m).fallbackLevel a = true ∧
    ((selectAccount tr w accounts m).fallbackLevel = FallbackLevel.lastResort →
      (selectAccount tr w accounts m).consumeCalls = []) ∧
    ((selectAccount tr w accounts m).fallbackLevel ≠ FallbackLevel.lastResort →
      (selectAccount tr w accounts m).consumeCalls = [a.email]) := by
  by_cases hacc : accounts = []
  · simp [selectAccount, hacc] at h
  · rcases hmap : (getCandidates tr accounts m).candidates.map
        (fun ci => (ci.1, ci.2, calculateScore tr w ci.1 m)) with _ | ⟨b0, brest⟩
    · simp [selectAccount, hacc, hmap] at h
    · have hbest : (pickBest b0 brest).1 = a := by
        simp [selectAccount, hacc, hmap] at h
        exact h
      have hmem : pickBest b0 brest ∈ b0 :: brest := pickBest_mem brest b0
      rw [← hmap] at hmem
      obtain ⟨ci, hci, hfci⟩ := List.mem_map.mp hmem
      have hci1 : ci.1 = a := by
        rw [← hbest, ← hfci]
      have hpass := getCandidates_mem tr accounts m ci hci
      rw [hci1] at hpass
      have hlevel : (selectAccount tr w accounts m).fallbackLevel =
          (getCandidates tr accounts m).fallbackLevel := by
        simp [selectAccount, hacc, hmap]
      have hcons : (selectAccount tr w accounts m).consumeCalls =
          (if (getCandidates tr accounts m).fallbackLevel ≠ FallbackLevel.lastResort
           then [(pickBest b0 brest).1.email] else []) := by
        simp [selectAccount, hacc, hmap]
      refine ⟨by rw [hlevel]; exact hpass, ?_, ?_⟩
      · intro hlr
        rw [hlevel] at hlr
        rw [hcons, if_neg (by simp [hlr])]
      · intro hlr
        rw [hlevel] at hlr
        rw [hcons, if_pos hlr, hbest]

/-- C5 witness: a single healthy account selected at the `normal` level, the
theorem applied there. -/
theorem c5_witness :
    passesLevel
      ⟨fun _ _ => true, fun _ => true, fun _ => 100, fun _ => true, fun _ => 10, 10,
        fun _ _ _ => false, fun _ _ => 100, fun _ => 750, none, 0⟩ "M"
      (selectAccount
        ⟨fun _ _ => true, fun _ => true, fun _ => 100, fun _ => true, fun _ => 10, 10,
          fun _ _ _ => false, fun _ _ => 100, fun _ => 750, none, 0⟩
        defaultWeights [mkAccount "z" false none []] "M").fallbackLevel
      (mkAccount "z" false none []) = true :=
  (c5_selection_filters_and_consume
    ⟨fun _ _ => true, fun _ => true, fun _ => 100, fun _ => true, fun _ => 10, 10,
      fun _ _ _ => false, fun _ _ => 100, fun _ => 750, none, 0⟩
    defaultWeights [mkAccount "z" false none []] "M" (mkAccount "z" false none [])
    (by rfl)).1

/-! ## Batch response conversion (`format/response-converter.ts`)

`convertGoogleToAnthropic` is documented as "Convert Google Generative AI
response to Anthropic Messages API format", and its callers
(`extractFirstResponseText`, `extractImagesFromResponse`,
`parseThinkingSSEResponse`'s `AnthropicResponse` return type) read typed
`content` blocks from its result — but the entire conversion body is
commented out in the source and the function returns the raw (unwrapped)
Google response unchanged. -/

/-- One candidate of a Google batch response: its content parts and finish
reason. -/
structure GCandidate where
  parts : List Part
  finishReason : Option String
deriving DecidableEq, Repr

/-- A Google batch response body (the inner `response` object). -/
structure GoogleResponse where
  candidates : List GCandidate
deriving DecidableEq, Repr

/-- The argument of `convertGoogleToAnthropic`: either a `{response: …}`
wrapper or the bare response (`googleResponse.response || googleResponse`). -/
inductive GoogleInput
  | wrapped (r : GoogleResponse)
  | plain (r : GoogleResponse)
deriving DecidableEq, Repr

/-- `convertGoogleToAnthropic(googleResponse, model)` as the source actually
computes it (lines 19-110 of `format/response-converter.ts`): unwrap the
`response` field if present and return the Google response unchanged — the
whole parts-to-content-blocks mapping is commented out. -/
def convertGoogleToAnthropic : GoogleInput → String → GoogleResponse
  | GoogleInput.wrapped r, _ => r
  | GoogleInput.plain r, _ => r

/-- An Anthropic-format content block, as the function's documentation and
its callers expect. -/
inductive ContentBlock
  | thinking (text signature : String)
  | textBlock (text : String)
  | toolUse (id : Option String) (name argsJson : String)
  | image (mime data : String)
deriving DecidableEq, Repr

/-- Modelled from the spec: `responseFromUpstream` as documented (§4.7 and
the commented-out body of `convertGoogleToAnthropic`) — map the first
candidate's parts into typed content blocks, a `thought` part to "thinking",
a non-empty text part to "text", a `functionCall` to "tool_use", inline data
to an image block, dropping empty text parts. -/
def responseFromUpstreamSpec (r : GoogleResponse) : List ContentBlock :=
  match r.candidates with
  | [] => []
  | c :: _ =>
    c.parts.filterMap fun p =>
      match p with
      | Part.thought t sig => some (ContentBlock.thinking t sig)
      | Part.textPart t => if t = "" then none else some (ContentBlock.textBlock t)
      | Part.functionCall id name args _ => some (ContentBlock.toolUse id name args)
      | Part.inlineData mime data => some (ContentBlock.image mime data)
      | Part.invalid => none

/-- C3 (code bug): on a canned upstream batch response whose first candidate
holds exactly one plain-text part `"hello"`, the live
`convertGoogleToAnthropic` returns the raw Google response unchanged — it
produces no typed content block at all — while the documented conversion
(per the function's own doc comment, its callers, and the spec) yields
exactly one "text" block carrying exactly `"hello"`. -/
theorem c3_conversion_disabled :
    convertGoogleToAnthropic
        (GoogleInput.plain ⟨[⟨[Part.textPart "hello"], some "STOP"⟩]⟩) "gemini-3-pro" =
      ⟨[⟨[Part.textPart "hello"], some "STOP"⟩]⟩ ∧
    responseFromUpstreamSpec ⟨[⟨[Part.textPart "hello"], some "STOP"⟩]⟩ =
      [ContentBlock.textBlock "hello"] := by
  constructor
  · rfl
  · rfl

end NOpen
